import Mathlib

/-!
Shallow embedding of the lazy model cache of TTS-Studio
(`backend/app/services/tts_manager.py` and
`backend/app/services/transcription_manager.py`).

The cache state is the pair of Python dicts `_models` / `_last_used`
(modelled as association lists in insertion order, like Python dicts),
plus the scalar configuration computed in `__init__`.  All mutating
methods run under `self._model_lock`, so each method is one atomic step;
N concurrent calls are a serialization of N such steps.  The loader
(`Qwen3TTSModel.from_pretrained` behind `qwen_tts`) is modelled as an
oracle giving the outcome of the i-th invocation, and `loadCount` counts
invocations.  Timestamps (`time.monotonic()`) are integers supplied per
step.
-/

namespace TTSStudio

abbrev Key := String
abbrev Handle := Nat
abbrev Time := Int

/-- `MODEL_IDS` from `tts_manager.py`. -/
def MODEL_IDS : List (Key × String) :=
  [("voice_design", "Qwen/Qwen3-TTS-12Hz-1.7B-VoiceDesign"),
   ("base_0.6B", "Qwen/Qwen3-TTS-12Hz-0.6B-Base"),
   ("base_1.7B", "Qwen/Qwen3-TTS-12Hz-1.7B-Base"),
   ("custom_0.6B", "Qwen/Qwen3-TTS-12Hz-0.6B-CustomVoice"),
   ("custom_1.7B", "Qwen/Qwen3-TTS-12Hz-1.7B-CustomVoice")]

/-- Outcome of the i-th loader invocation: `some h` when
`Qwen3TTSModel.from_pretrained` returns handle `h`, `none` when it raises. -/
abbrev Loader := Nat → Option Handle

/-- The mutable state of a manager: the two dicts, the configuration
computed in `__init__`, the stop event, whether the cleanup thread was
started, and the count of loader invocations so far. -/
structure MgrState where
  models : List (Key × Handle)
  lastUsed : List (Key × Time)
  idleTimeoutS : Nat
  cleanupIntervalS : Nat
  stopCleanup : Bool
  cleanupThreadStarted : Bool
  loadCount : Nat
deriving Repr, DecidableEq

/-- `__init__`: `_idle_timeout_s = max(0, MODEL_IDLE_TIMEOUT_S)`,
`_cleanup_interval_s = max(30, min(300, t // 6)) if t else 0`, and the
cleanup thread is started iff the timeout is positive. -/
def initState (cfgIdleTimeoutS : Int) : MgrState :=
  let t : Nat := (max 0 cfgIdleTimeoutS).toNat
  { models := []
    lastUsed := []
    idleTimeoutS := t
    cleanupIntervalS := if t ≠ 0 then max 30 (min 300 (t / 6)) else 0
    stopCleanup := false
    cleanupThreadStarted := decide (0 < t)
    loadCount := 0 }

/-- `_touch_model`: `self._last_used[model_key] = time.monotonic()` —
Python dict assignment: replace in place if the key exists, else append. -/
def touch (lu : List (Key × Time)) (k : Key) (now : Time) : List (Key × Time) :=
  match lu with
  | [] => [(k, now)]
  | p :: t => if p.1 = k then (p.1, now) :: t else p :: touch t k now

/-- Result of `_get_model`: the returned handle, the `ValueError` for an
unknown key, or the re-raised loader exception. -/
inductive AcquireResult where
  | handle (h : Handle)
  | unknownKeyError
  | loadFailed
deriving Repr, DecidableEq

/-- `_get_model(model_key)`: raise `ValueError` for unknown keys before
taking the lock; under the lock, load when absent (inserting only on
success, re-raising on failure before `_touch_model` runs), then touch
and return the cached handle. -/
def acquire (loader : Loader) (now : Time) (s : MgrState) (k : Key) :
    MgrState × AcquireResult :=
  if (MODEL_IDS.lookup k).isNone then (s, .unknownKeyError)
  else
    match s.models.lookup k with
    | some h => ({ s with lastUsed := touch s.lastUsed k now }, .handle h)
    | none =>
      match loader s.loadCount with
      | none => ({ s with loadCount := s.loadCount + 1 }, .loadFailed)
      | some h =>
        ({ s with
            models := s.models ++ [(k, h)]
            lastUsed := touch s.lastUsed k now
            loadCount := s.loadCount + 1 }, .handle h)

/-- N serialized `_get_model` calls for the same key (the lock orders
concurrent callers); one timestamp per caller. -/
def acquireN (loader : Loader) (s : MgrState) (k : Key) :
    List Time → MgrState × List AcquireResult
  | [] => (s, [])
  | t :: ts =>
    let r := acquire loader t s k
    let rest := acquireN loader r.1 k ts
    (rest.1, r.2 :: rest.2)

/-- The `stale_keys` list comprehension of `_unload_idle_models_locked`:
keys of `_last_used` that are loaded and whose
`last_used <= cutoff = now - idle_timeout`. -/
def staleKeys (now : Time) (s : MgrState) : List Key :=
  (s.lastUsed.filter
    (fun p => (s.models.lookup p.1).isSome &&
      decide (p.2 ≤ now - (s.idleTimeoutS : Int)))).map Prod.fst

/-- `_unload_idle_models_locked(now)`: early return when the timeout is
not positive or no models are loaded; otherwise delete every stale key
from both dicts and return the stale keys. -/
def unloadIdleLocked (now : Time) (s : MgrState) : MgrState × List Key :=
  if s.idleTimeoutS = 0 ∨ s.models = [] then (s, [])
  else
    ({ s with
        models := s.models.filter (fun p => !(staleKeys now s).contains p.1)
        lastUsed := s.lastUsed.filter (fun p => !(staleKeys now s).contains p.1) },
     staleKeys now s)

/-- Observable side effects of the teardown paths. -/
inductive Action where
  | removeEntry (k : Key)
  | removeAll
  | clearDeviceCache
deriving Repr, DecidableEq

/-- One iteration of `_cleanup_loop`: nothing happens when the thread was
never started or the stop event is set; otherwise unload idle models
under the lock, then clear the device cache iff something was unloaded. -/
def cleanupWake (now : Time) (s : MgrState) : MgrState × List Key × List Action :=
  if !s.cleanupThreadStarted || s.stopCleanup then (s, [], [])
  else
    let r := unloadIdleLocked now s
    (r.1, r.2, if r.2.isEmpty then [] else [Action.clearDeviceCache])

/-- `unload_model(model_key)`: under the lock delete the entry from both
dicts if present; afterwards, outside the lock, clear the device cache iff
something was removed.  The Python body has no `return` statement, so the
call returns `None`: the `Option Bool` component is that return value and
is always `none`. -/
def unload_model (s : MgrState) (k : Key) : MgrState × Option Bool × List Action :=
  if (s.models.lookup k).isSome then
    ({ s with
        models := s.models.filter (fun p => !(p.1 == k))
        lastUsed := s.lastUsed.filter (fun p => !(p.1 == k)) },
     none,
     [Action.removeEntry k, Action.clearDeviceCache])
  else (s, none, [])

/-- `unload_all()`: under the lock clear both dicts, remembering whether
any model was resident; clear the device cache afterwards iff so. -/
def unload_all (s : MgrState) : MgrState × List Action :=
  let hadModels := !s.models.isEmpty
  ({ s with models := [], lastUsed := [] },
   if hadModels then [Action.removeAll, Action.clearDeviceCache] else [])

/-- `shutdown()`: set the stop event (the cleanup thread is then joined
with a 2 s bound, abstracted away here), then `unload_all`. -/
def shutdown (s : MgrState) : MgrState × List Action :=
  let s1 := { s with stopCleanup := true }
  unload_all s1

/-- Serialized interleaving alphabet: every lock-protected step a thread
can take against one manager. -/
inductive Op where
  | acquireOp (k : Key) (now : Time)
  | wakeOp (now : Time)
  | unloadModelOp (k : Key)
  | unloadAllOp
  | shutdownOp
deriving Repr, DecidableEq

/-- Whether an operation is one of the explicit removal entry points. -/
def Op.isExplicitRemoval : Op → Bool
  | .unloadModelOp _ => true
  | .unloadAllOp => true
  | .shutdownOp => true
  | _ => false

def step (loader : Loader) (s : MgrState) : Op → MgrState
  | .acquireOp k now => (acquire loader now s k).1
  | .wakeOp now => (cleanupWake now s).1
  | .unloadModelOp k => (unload_model s k).1
  | .unloadAllOp => (unload_all s).1
  | .shutdownOp => (shutdown s).1

def run (loader : Loader) (s : MgrState) (ops : List Op) : MgrState :=
  ops.foldl (step loader) s

/-- The keys of an association list, in order (Python `dict` key order). -/
def keysOf {α : Type} (l : List (Key × α)) : List Key := l.map Prod.fst

/-- The cache invariant: `_models` and `_last_used` hold exactly the same
keys (even in the same order), without duplicates. -/
def Inv (s : MgrState) : Prop :=
  keysOf s.models = keysOf s.lastUsed ∧ (keysOf s.models).Nodup

/- Device selection and dtype choice. -/

/-- The availability probes consulted by `_detect_device`. -/
structure DeviceProbe where
  cudaAvailable : Bool
  mpsAvailable : Bool
  hipAvailable : Bool
deriving Repr, DecidableEq

/-- `TTSManager._detect_device`: CUDA, then MPS, then ROCm (reported as
`cuda:0`), else CPU. -/
def tts_detect_device (p : DeviceProbe) : String :=
  if p.cudaAvailable then "cuda:0"
  else if p.mpsAvailable then "mps"
  else if p.hipAvailable then "cuda:0"
  else "cpu"

/-- `TranscriptionManager._detect_device`: CUDA, then MPS, else CPU. -/
def transcription_detect_device (p : DeviceProbe) : String :=
  if p.cudaAvailable then "cuda:0"
  else if p.mpsAvailable then "mps"
  else "cpu"

inductive Dtype where
  | bfloat16
  | float16
  | float32
deriving Repr, DecidableEq

/-- `TTSManager.__init__`:
`torch.bfloat16 if self._device != "cpu" else torch.float32`. -/
def tts_dtype (device : String) : Dtype :=
  if device ≠ "cpu" then .bfloat16 else .float32

/-- Python `str.startswith`, spelt out on character lists so that it
evaluates in the kernel. -/
def charsLeadWith : List Char → List Char → Bool
  | [], _ => true
  | _ :: _, [] => false
  | c :: cs, d :: ds => c == d && charsLeadWith cs ds

def strStartsWith (pre s : String) : Bool := charsLeadWith pre.data s.data

/-- `TranscriptionManager._get_pipeline`:
`torch.float16 if self._device.startswith("cuda") else torch.float32`. -/
def transcription_dtype (device : String) : Dtype :=
  if strStartsWith "cuda" device then .float16 else .float32

/-- Reduced (half-width) precision vs. full `float32`. -/
def isReducedPrecision : Dtype → Bool
  | .float32 => false
  | _ => true

/-- A device string names an accelerator iff it is not the CPU. -/
def isAccelerator (device : String) : Bool := device != "cpu"

/-- Spec-side clamp: `clamp(x, lo, hi)`. -/
def clampSpec (x lo hi : Nat) : Nat := max lo (min hi x)

/-- A loader that raises on its first invocation and succeeds afterwards
with handle 7. -/
def flakyLoader : Loader := fun i => if i = 0 then none else some 7

/-- A loader producing the fresh handle `100 + i` on the i-th invocation. -/
def freshLoader : Loader := fun i => some (100 + i)

/-- Concrete input: one resident model, idle timeout 600 s. -/
def oneModelState : MgrState :=
  { models := [("voice_design", 7)]
    lastUsed := [("voice_design", 0)]
    idleTimeoutS := 600
    cleanupIntervalS := 100
    stopCleanup := false
    cleanupThreadStarted := true
    loadCount := 1 }

/-- Concrete input: two resident models of different ages, idle timeout
60 s. -/
def twoModelState : MgrState :=
  { models := [("voice_design", 1), ("base_0.6B", 2)]
    lastUsed := [("voice_design", 10), ("base_0.6B", 50)]
    idleTimeoutS := 60
    cleanupIntervalS := 30
    stopCleanup := false
    cleanupThreadStarted := true
    loadCount := 2 }

/-- Concrete input: eviction disabled (`idleTimeout = 0`), one resident
model, no cleanup thread. -/
def disabledEvictionState : MgrState :=
  { models := [("voice_design", 7)]
    lastUsed := [("voice_design", 0)]
    idleTimeoutS := 0
    cleanupIntervalS := 0
    stopCleanup := false
    cleanupThreadStarted := false
    loadCount := 1 }

/-! ### Association-list lemmas -/

theorem lookup_cons_self {α : Type} (b : Key) (v : α) (t : List (Key × α)) :
    ((b, v) :: t).lookup b = some v := by
  simp [List.lookup]

theorem lookup_cons_ne {α : Type} (b : Key) (v : α) (t : List (Key × α)) (k : Key)
    (hb : (k == b) = false) : ((b, v) :: t).lookup k = t.lookup k := by
  simp [List.lookup, hb]

theorem lookup_isSome_iff {α : Type} (l : List (Key × α)) (k : Key) :
    (l.lookup k).isSome = true ↔ k ∈ keysOf l := by
  induction l with
  | nil => simp [keysOf, List.lookup]
  | cons p t ih =>
    obtain ⟨b, v⟩ := p
    by_cases hk : k = b
    · subst hk; simp [keysOf, List.lookup]
    · have hb : (k == b) = false := by simp [hk]
      simp [keysOf, List.lookup, hb, hk, ih]

theorem lookup_eq_none_iff {α : Type} (l : List (Key × α)) (k : Key) :
    l.lookup k = none ↔ k ∉ keysOf l := by
  rw [← lookup_isSome_iff]
  cases h : l.lookup k <;> simp

theorem mem_of_lookup_eq_some {α : Type} {l : List (Key × α)} {k : Key} {v : α}
    (h : l.lookup k = some v) : (k, v) ∈ l := by
  induction l with
  | nil => simp [List.lookup] at h
  | cons p t ih =>
    obtain ⟨b, w⟩ := p
    by_cases hk : k = b
    · subst hk
      simp [List.lookup] at h
      simp [h]
    · have hb : (k == b) = false := by simp [hk]
      simp [List.lookup, hb] at h
      exact List.mem_cons_of_mem _ (ih h)

theorem lookup_of_mem_keysNodup {α : Type} {l : List (Key × α)} {k : Key} {v : α}
    (hnd : (keysOf l).Nodup) (hmem : (k, v) ∈ l) : l.lookup k = some v := by
  induction l with
  | nil => cases hmem
  | cons p t ih =>
    obtain ⟨b, w⟩ := p
    simp only [keysOf, List.map_cons, List.nodup_cons] at hnd
    rcases List.mem_cons.mp hmem with heq | htl
    · obtain ⟨rfl, rfl⟩ := Prod.mk.injEq .. ▸ heq
      simp [List.lookup]
    · have hk : ¬ k = b := by
        intro e
        subst e
        exact hnd.1 (List.mem_map.mpr ⟨(k, v), htl, rfl⟩)
      have hb : (k == b) = false := by simp [hk]
      simp [List.lookup, hb]
      exact ih hnd.2 htl

theorem lookup_filter_keys {α : Type} (l : List (Key × α)) (q : Key → Bool) (k : Key) :
    (l.filter (fun p => q p.1)).lookup k = if q k then l.lookup k else none := by
  induction l with
  | nil => simp [List.lookup]
  | cons p t ih =>
    obtain ⟨b, v⟩ := p
    by_cases hq : q b
    · by_cases hk : k = b
      · subst hk
        simp [List.filter, hq, List.lookup]
      · have hb : (k == b) = false := by simp [hk]
        simp [List.filter, hq, List.lookup, hb, ih]
    · by_cases hk : k = b
      · subst hk
        simp [List.filter, hq, List.lookup, ih]
      · have hb : (k == b) = false := by simp [hk]
        simp [List.filter, hq, List.lookup, hb, ih]

theorem lookup_append_right {α : Type} (l₁ l₂ : List (Key × α)) (k : Key)
    (h : l₁.lookup k = none) : (l₁ ++ l₂).lookup k = l₂.lookup k := by
  induction l₁ with
  | nil => simp
  | cons p t ih =>
    obtain ⟨b, v⟩ := p
    by_cases hk : k = b
    · subst hk
      rw [lookup_cons_self] at h
      cases h
    · have hb : (k == b) = false := by simp [hk]
      rw [List.cons_append, lookup_cons_ne _ _ _ _ hb]
      rw [lookup_cons_ne _ _ _ _ hb] at h
      exact ih h

theorem keysOf_filter {α : Type} (l : List (Key × α)) (q : Key → Bool) :
    keysOf (l.filter (fun p => q p.1)) = (keysOf l).filter q := by
  induction l with
  | nil => rfl
  | cons p t ih =>
    by_cases hq : q p.1 <;> simp [List.filter, keysOf, hq] <;>
      simpa [keysOf] using ih

theorem contains_iff_mem (l : List Key) (k : Key) : l.contains k = true ↔ k ∈ l := by
  simp

theorem keysOf_nil {α : Type} : keysOf ([] : List (Key × α)) = [] := rfl

theorem keysOf_cons {α : Type} (p : Key × α) (t : List (Key × α)) :
    keysOf (p :: t) = p.1 :: keysOf t := rfl

theorem keysOf_append {α : Type} (l₁ l₂ : List (Key × α)) :
    keysOf (l₁ ++ l₂) = keysOf l₁ ++ keysOf l₂ := by
  simp [keysOf]

/-! ### `touch` lemmas -/

theorem touch_lookup_self (lu : List (Key × Time)) (k : Key) (now : Time) :
    (touch lu k now).lookup k = some now := by
  induction lu with
  | nil => simp [touch, List.lookup]
  | cons p t ih =>
    by_cases h : p.1 = k
    · subst h
      simp only [touch, if_pos rfl]
      exact lookup_cons_self _ _ _
    · have h2 : (k == p.1) = false := by
        simp only [beq_eq_false_iff_ne, ne_eq]
        exact fun e => h e.symm
      simp only [touch, if_neg h]
      rw [lookup_cons_ne _ _ _ _ h2]
      exact ih

theorem touch_lookup_ne (lu : List (Key × Time)) (k k' : Key) (now : Time)
    (hne : k' ≠ k) : (touch lu k now).lookup k' = lu.lookup k' := by
  induction lu with
  | nil =>
    have h2 : (k' == k) = false := by simp [hne]
    simp [touch, List.lookup, h2]
  | cons p t ih =>
    obtain ⟨b, v⟩ := p
    by_cases h : b = k
    · subst h
      have h2 : (k' == b) = false := by simp [hne]
      have ht : touch ((b, v) :: t) b now = (b, now) :: t := by simp [touch]
      rw [ht, lookup_cons_ne _ _ _ _ h2, lookup_cons_ne _ _ _ _ h2]
    · have ht : touch ((b, v) :: t) k now = (b, v) :: touch t k now := by
        simp [touch, h]
      by_cases hk : k' = b
      · subst hk
        rw [ht, lookup_cons_self, lookup_cons_self]
      · have h4 : (k' == b) = false := by simp [hk]
        rw [ht, lookup_cons_ne _ _ _ _ h4, lookup_cons_ne _ _ _ _ h4]
        exact ih

theorem touch_keys_of_mem (lu : List (Key × Time)) (k : Key) (now : Time)
    (h : k ∈ keysOf lu) : keysOf (touch lu k now) = keysOf lu := by
  induction lu with
  | nil => cases h
  | cons p t ih =>
    by_cases hp : p.1 = k
    · simp only [touch, if_pos hp, keysOf_cons]
    · have h4 : ¬ k = p.1 := fun e => hp e.symm
      have hk : k ∈ keysOf t := by
        rw [keysOf_cons] at h
        rcases List.mem_cons.mp h with he | ht
        · exact absurd he h4
        · exact ht
      simp only [touch, if_neg hp, keysOf_cons, ih hk]

theorem touch_keys_of_not_mem (lu : List (Key × Time)) (k : Key) (now : Time)
    (h : k ∉ keysOf lu) : keysOf (touch lu k now) = keysOf lu ++ [k] := by
  induction lu with
  | nil => simp [touch, keysOf]
  | cons p t ih =>
    have hp : ¬ p.1 = k := by
      intro e
      exact h (by rw [keysOf_cons, e]; exact List.mem_cons_self _ _)
    have hk : k ∉ keysOf t := by
      intro hmem
      exact h (by rw [keysOf_cons]; exact List.mem_cons_of_mem _ hmem)
    simp only [touch, if_neg hp, keysOf_cons, ih hk, List.cons_append]

/-! ### Characterizations of the operations -/

theorem acquire_unknown (loader : Loader) (now : Time) (s : MgrState) (k : Key)
    (h : MODEL_IDS.lookup k = none) :
    acquire loader now s k = (s, .unknownKeyError) := by
  simp [acquire, h]

theorem acquire_warm (loader : Loader) (now : Time) (s : MgrState) (k : Key)
    (h0 : Handle) (hknown : (MODEL_IDS.lookup k).isSome)
    (hm : s.models.lookup k = some h0) :
    acquire loader now s k =
      ({ s with lastUsed := touch s.lastUsed k now }, .handle h0) := by
  obtain ⟨m, hmk⟩ := Option.isSome_iff_exists.mp hknown
  simp [acquire, hmk, hm]

theorem acquire_cold_fail (loader : Loader) (now : Time) (s : MgrState) (k : Key)
    (hknown : (MODEL_IDS.lookup k).isSome)
    (hm : s.models.lookup k = none) (hl : loader s.loadCount = none) :
    acquire loader now s k = ({ s with loadCount := s.loadCount + 1 }, .loadFailed) := by
  obtain ⟨m, hmk⟩ := Option.isSome_iff_exists.mp hknown
  simp [acquire, hmk, hm, hl]

theorem acquire_cold_success (loader : Loader) (now : Time) (s : MgrState) (k : Key)
    (h1 : Handle) (hknown : (MODEL_IDS.lookup k).isSome)
    (hm : s.models.lookup k = none) (hl : loader s.loadCount = some h1) :
    acquire loader now s k =
      ({ s with
          models := s.models ++ [(k, h1)]
          lastUsed := touch s.lastUsed k now
          loadCount := s.loadCount + 1 }, .handle h1) := by
  obtain ⟨m, hmk⟩ := Option.isSome_iff_exists.mp hknown
  simp [acquire, hmk, hm, hl]

theorem unloadIdleLocked_skip (now : Time) (s : MgrState)
    (h : s.idleTimeoutS = 0 ∨ s.models = []) :
    unloadIdleLocked now s = (s, []) := by
  simp [unloadIdleLocked, h]

theorem unloadIdleLocked_run (now : Time) (s : MgrState)
    (h0 : ¬ s.idleTimeoutS = 0) (hm : ¬ s.models = []) :
    unloadIdleLocked now s =
      ({ s with
          models := s.models.filter (fun p => !(staleKeys now s).contains p.1)
          lastUsed := s.lastUsed.filter (fun p => !(staleKeys now s).contains p.1) },
       staleKeys now s) := by
  rw [unloadIdleLocked, if_neg (by simp [h0, hm])]

/-! ### The cache invariant is preserved by every operation -/

theorem inv_initState (cfg : Int) : Inv (initState cfg) := by
  constructor <;> simp [initState, keysOf]

theorem inv_acquire (loader : Loader) (now : Time) (s : MgrState) (k : Key)
    (h : Inv s) : Inv (acquire loader now s k).1 := by
  obtain ⟨hkeys, hnd⟩ := h
  cases hmk : MODEL_IDS.lookup k with
  | none => rw [acquire_unknown loader now s k hmk]; exact ⟨hkeys, hnd⟩
  | some m =>
    have hknown : (MODEL_IDS.lookup k).isSome := by simp [hmk]
    cases hm : s.models.lookup k with
    | some h0 =>
      rw [acquire_warm loader now s k h0 hknown hm]
      refine ⟨?_, hnd⟩
      have hmem : k ∈ keysOf s.lastUsed := by
        rw [← hkeys]
        exact (lookup_isSome_iff _ _).mp (by simp [hm])
      simpa [touch_keys_of_mem _ _ now hmem] using hkeys
    | none =>
      cases hl : loader s.loadCount with
      | none => rw [acquire_cold_fail loader now s k hknown hm hl]; exact ⟨hkeys, hnd⟩
      | some h1 =>
        rw [acquire_cold_success loader now s k h1 hknown hm hl]
        have hk : k ∉ keysOf s.models := (lookup_eq_none_iff _ _).mp hm
        have hk2 : k ∉ keysOf s.lastUsed := hkeys ▸ hk
        constructor
        · show keysOf (s.models ++ [(k, h1)]) = keysOf (touch s.lastUsed k now)
          rw [keysOf_append, touch_keys_of_not_mem _ _ now hk2, hkeys]
          rfl
        · show (keysOf (s.models ++ [(k, h1)])).Nodup
          rw [keysOf_append]
          refine List.Nodup.append hnd (List.nodup_singleton k) ?_
          intro a ha hb
          rw [show keysOf [(k, h1)] = [k] from rfl, List.mem_singleton] at hb
          subst hb
          exact hk ha

theorem inv_unloadIdleLocked (now : Time) (s : MgrState) (h : Inv s) :
    Inv (unloadIdleLocked now s).1 := by
  obtain ⟨hkeys, hnd⟩ := h
  by_cases hc : s.idleTimeoutS = 0 ∨ s.models = []
  · rw [unloadIdleLocked_skip now s hc]; exact ⟨hkeys, hnd⟩
  · push_neg at hc
    rw [unloadIdleLocked_run now s hc.1 hc.2]
    have e1 := keysOf_filter s.models (fun b => !(staleKeys now s).contains b)
    have e2 := keysOf_filter s.lastUsed (fun b => !(staleKeys now s).contains b)
    refine ⟨?_, ?_⟩
    · rw [hkeys] at e1
      exact e1.trans e2.symm
    · exact e1 ▸ hnd.filter _

theorem inv_cleanupWake (now : Time) (s : MgrState) (h : Inv s) :
    Inv (cleanupWake now s).1 := by
  unfold cleanupWake
  split
  · exact h
  · exact inv_unloadIdleLocked now s h

theorem inv_unload_model (s : MgrState) (k : Key) (h : Inv s) :
    Inv (unload_model s k).1 := by
  obtain ⟨hkeys, hnd⟩ := h
  unfold unload_model
  split
  · have e1 := keysOf_filter s.models (fun b => !(b == k))
    have e2 := keysOf_filter s.lastUsed (fun b => !(b == k))
    refine ⟨?_, ?_⟩
    · rw [hkeys] at e1
      exact e1.trans e2.symm
    · exact e1 ▸ hnd.filter _
  · exact ⟨hkeys, hnd⟩

theorem inv_unload_all (s : MgrState) (_h : Inv s) : Inv (unload_all s).1 := by
  constructor <;> simp [unload_all, keysOf]

theorem inv_shutdown (s : MgrState) (_h : Inv s) : Inv (shutdown s).1 := by
  constructor <;> simp [shutdown, unload_all, keysOf]

theorem inv_step (loader : Loader) (s : MgrState) (op : Op) (h : Inv s) :
    Inv (step loader s op) := by
  cases op with
  | acquireOp k now => exact inv_acquire loader now s k h
  | wakeOp now => exact inv_cleanupWake now s h
  | unloadModelOp k => exact inv_unload_model s k h
  | unloadAllOp => exact inv_unload_all s h
  | shutdownOp => exact inv_shutdown s h

theorem inv_run (loader : Loader) (s : MgrState) (ops : List Op) (h : Inv s) :
    Inv (run loader s ops) := by
  induction ops generalizing s with
  | nil => exact h
  | cons op ops ih => exact ih _ (inv_step loader s op h)

/-! ### Further helper lemmas -/

theorem mem_staleKeys_iff (now : Time) (s : MgrState) (k : Key)
    (hnd : (keysOf s.lastUsed).Nodup) :
    k ∈ staleKeys now s ↔
      ((s.models.lookup k).isSome = true ∧
       ∃ t, s.lastUsed.lookup k = some t ∧ t ≤ now - (s.idleTimeoutS : Int)) := by
  unfold staleKeys
  constructor
  · intro h
    obtain ⟨p, hp, hpk⟩ := List.mem_map.mp h
    obtain ⟨hpmem, hpred⟩ := List.mem_filter.mp hp
    obtain ⟨k0, t0⟩ := p
    cases hpk
    simp only [Bool.and_eq_true, decide_eq_true_eq] at hpred
    exact ⟨hpred.1, t0, lookup_of_mem_keysNodup hnd hpmem, hpred.2⟩
  · rintro ⟨hm, t0, hlk, hle⟩
    refine List.mem_map.mpr
      ⟨(k, t0), List.mem_filter.mpr ⟨mem_of_lookup_eq_some hlk, ?_⟩, rfl⟩
    simp [hm, hle]

theorem acquire_idleTimeoutS (loader : Loader) (now : Time) (s : MgrState) (k : Key) :
    (acquire loader now s k).1.idleTimeoutS = s.idleTimeoutS := by
  unfold acquire
  split
  · rfl
  · split
    · rfl
    · split <;> rfl

theorem step_idleTimeoutS (loader : Loader) (s : MgrState) (op : Op) :
    (step loader s op).idleTimeoutS = s.idleTimeoutS := by
  cases op with
  | acquireOp k now => exact acquire_idleTimeoutS loader now s k
  | wakeOp now =>
    show (cleanupWake now s).1.idleTimeoutS = s.idleTimeoutS
    unfold cleanupWake
    split
    · rfl
    · show (unloadIdleLocked now s).1.idleTimeoutS = s.idleTimeoutS
      unfold unloadIdleLocked
      split <;> rfl
  | unloadModelOp k =>
    show (unload_model s k).1.idleTimeoutS = s.idleTimeoutS
    unfold unload_model
    split <;> rfl
  | unloadAllOp => rfl
  | shutdownOp => rfl

theorem acquire_key_mono (loader : Loader) (now : Time) (s : MgrState)
    (k k2 : Key) (h : k2 ∈ keysOf s.models) :
    k2 ∈ keysOf (acquire loader now s k).1.models := by
  unfold acquire
  split
  · exact h
  · split
    · exact h
    · split
      · exact h
      · dsimp only
        rw [keysOf_append]
        exact List.mem_append_left _ h

theorem cleanupWake_state_of_timeout_zero (now : Time) (s : MgrState)
    (h : s.idleTimeoutS = 0) : (cleanupWake now s).1 = s := by
  unfold cleanupWake
  split
  · rfl
  · show (unloadIdleLocked now s).1 = s
    rw [unloadIdleLocked_skip now s (Or.inl h)]

theorem warm_acquireN (loader : Loader) (k : Key) (h1 : Handle)
    (hknown : (MODEL_IDS.lookup k).isSome) :
    ∀ (ts : List Time) (s : MgrState), s.models.lookup k = some h1 →
      (acquireN loader s k ts).1.loadCount = s.loadCount ∧
      (acquireN loader s k ts).1.models = s.models ∧
      ∀ r ∈ (acquireN loader s k ts).2, r = AcquireResult.handle h1 := by
  intro ts
  induction ts with
  | nil =>
    intro s _
    exact ⟨rfl, rfl, by intro r hr; cases hr⟩
  | cons t ts ih =>
    intro s hm
    have ha := acquire_warm loader t s k h1 hknown hm
    have hm2 : ({ s with lastUsed := touch s.lastUsed k t } : MgrState).models.lookup k
        = some h1 := hm
    obtain ⟨hc, hmods, hall⟩ := ih _ hm2
    simp only [acquireN, ha]
    refine ⟨hc, hmods, ?_⟩
    intro r hr
    rcases List.mem_cons.mp hr with rfl | hr2
    · rfl
    · exact hall r hr2

/-! ### Claims -/

/-- C5: `shutdown()` signals the background cleanup scheduler to stop and
then evicts all entries: immediately afterwards no key is resident and the
scheduler's wake step is inert; calling `shutdown()` a second time leaves
the state unchanged and performs no release work at all (so nothing is
released twice). -/
theorem C5_shutdown_terminal_idempotent (s : MgrState) :
    (shutdown s).1.models = [] ∧
    (shutdown s).1.lastUsed = [] ∧
    (shutdown s).1.stopCleanup = true ∧
    (∀ now : Time, cleanupWake now (shutdown s).1 = ((shutdown s).1, [], [])) ∧
    shutdown (shutdown s).1 = ((shutdown s).1, []) := by
  refine ⟨rfl, rfl, rfl, ?_, ?_⟩
  · intro now
    simp [cleanupWake, shutdown, unload_all]
  · simp [shutdown, unload_all]

/-- C7: for every positive idle timeout, the wake interval of the cleanup
scheduler computed in `__init__` equals `clamp(idleTimeout / 6, 30, 300)`
(seconds), and in particular lies between 30 and 300. -/
theorem C7_wake_interval_clamp (t : Nat) (ht : 0 < t) :
    (initState (t : Int)).cleanupIntervalS = clampSpec (t / 6) 30 300 ∧
    30 ≤ (initState (t : Int)).cleanupIntervalS ∧
    (initState (t : Int)).cleanupIntervalS ≤ 300 := by
  have hne : t ≠ 0 := Nat.pos_iff_ne_zero.mp ht
  have htn : (max 0 (t : Int)).toNat = t := by omega
  have hinit : (initState (t : Int)).cleanupIntervalS = max 30 (min 300 (t / 6)) := by
    simp [initState, htn, hne]
  refine ⟨by rw [hinit]; rfl, ?_, ?_⟩ <;> rw [hinit] <;> omega

/-- Witness for C7 at `idleTimeout = 200` s (interval `33 = 200 / 6`). -/
theorem C7_wake_interval_clamp_witness :
    0 < 200 ∧ (initState (200 : Int)).cleanupIntervalS = clampSpec (200 / 6) 30 300 :=
  ⟨by decide, (C7_wake_interval_clamp 200 (by decide)).1⟩

/-- C9 counterexample: the MPS target — an accelerator the transcription
manager detects when CUDA is absent and MPS is present — is handed full
`float32` precision by `_get_pipeline`, so reduced precision does not hold
exactly on accelerators. -/
theorem C9_counterexample :
    transcription_detect_device ⟨false, true, false⟩ = "mps" ∧
    isAccelerator "mps" = true ∧
    isReducedPrecision (transcription_dtype "mps") = false := by
  refine ⟨rfl, by decide, by decide⟩

/-- C9 amended: the TTS manager hands loaders reduced precision
(`bfloat16`) exactly when the detected target is an accelerator; the
transcription manager hands reduced precision (`float16`) exactly when the
detected target is CUDA, and full precision on MPS and CPU. -/
theorem C9_amended_precision (p : DeviceProbe) :
    (isReducedPrecision (tts_dtype (tts_detect_device p)) =
      isAccelerator (tts_detect_device p)) ∧
    (∀ d : String, isReducedPrecision (tts_dtype d) = isAccelerator d) ∧
    (isReducedPrecision (transcription_dtype (transcription_detect_device p)) =
      (transcription_detect_device p == "cuda:0")) := by
  refine ⟨?_, ?_, ?_⟩
  · by_cases h : tts_detect_device p = "cpu" <;>
      simp [tts_dtype, isAccelerator, isReducedPrecision, h]
  · intro d
    by_cases h : d = "cpu" <;>
      simp [tts_dtype, isAccelerator, isReducedPrecision, h]
  · obtain ⟨c, m, hip⟩ := p
    cases c <;> cases m <;> cases hip <;> decide

/-- C10: starting from a freshly initialized manager, after any serialized
sequence of operations the `_models` dict and the `_last_used` dict hold
exactly the same set of keys. -/
theorem C10_key_sets_agree (loader : Loader) (cfg : Int) (ops : List Op) (k : Key) :
    ((run loader (initState cfg) ops).models.lookup k).isSome =
      ((run loader (initState cfg) ops).lastUsed.lookup k).isSome := by
  have h := inv_run loader (initState cfg) ops (inv_initState cfg)
  rw [Bool.eq_iff_iff, lookup_isSome_iff, lookup_isSome_iff, h.1]

/-- C1 counterexample: two concurrent cold `_get_model("voice_design")`
calls, serialized by the model lock, against a loader that raises on its
first invocation and succeeds on its second: the loader is invoked twice
(`loadCount` goes from 0 to 2), the first caller gets the failure and the
second a handle — neither "exactly one loader invocation" nor "all
callers receive the same outcome" holds on the failure path. -/
theorem C1_counterexample :
    (acquireN flakyLoader (initState 600) "voice_design" [0, 1]).1.loadCount = 2 ∧
    (acquireN flakyLoader (initState 600) "voice_design" [0, 1]).2 =
      [AcquireResult.loadFailed, AcquireResult.handle 7] := by
  exact ⟨by decide, by decide⟩

/-- C1 amended: N concurrent cold acquires for a key serialize through the
lock; when the first loader invocation succeeds, the loader runs exactly
once and every caller receives that same handle.  (When an invocation
fails, only the caller that made it receives the error and the next waiting
caller re-invokes the loader — see the counterexample.) -/
theorem C1_single_flight_on_success (loader : Loader) (s : MgrState) (k : Key)
    (h1 : Handle) (ts : List Time)
    (hknown : (MODEL_IDS.lookup k).isSome)
    (hcold : s.models.lookup k = none)
    (hload : loader s.loadCount = some h1) :
    (ts ≠ [] → (acquireN loader s k ts).1.loadCount = s.loadCount + 1) ∧
    ∀ r ∈ (acquireN loader s k ts).2, r = AcquireResult.handle h1 := by
  cases ts with
  | nil =>
    exact ⟨fun h => absurd rfl h, by intro r hr; cases hr⟩
  | cons t ts =>
    have ha := acquire_cold_success loader t s k h1 hknown hcold hload
    have hm2 : ({ s with
        models := s.models ++ [(k, h1)]
        lastUsed := touch s.lastUsed k t
        loadCount := s.loadCount + 1 } : MgrState).models.lookup k = some h1 := by
      show (s.models ++ [(k, h1)]).lookup k = some h1
      rw [lookup_append_right _ _ _ hcold, lookup_cons_self]
    obtain ⟨hc, hmods, hall⟩ := warm_acquireN loader k h1 hknown ts _ hm2
    simp only [acquireN, ha]
    refine ⟨fun _ => hc, ?_⟩
    intro r hr
    rcases List.mem_cons.mp hr with rfl | hr2
    · rfl
    · exact hall r hr2

/-- Witness for C1 (amended) with three serialized callers and a loader
that succeeds at once. -/
theorem C1_single_flight_on_success_witness :
    ((MODEL_IDS.lookup "voice_design").isSome = true ∧
     (initState 600).models.lookup "voice_design" = none ∧
     freshLoader (initState 600).loadCount = some 100 ∧
     ([0, 1, 2] : List Time) ≠ []) ∧
    ((acquireN freshLoader (initState 600) "voice_design" [0, 1, 2]).1.loadCount =
        (initState 600).loadCount + 1 ∧
     ∀ r ∈ (acquireN freshLoader (initState 600) "voice_design" [0, 1, 2]).2,
        r = AcquireResult.handle 100) := by
  refine ⟨⟨by decide, by decide, by decide, by decide⟩, ?_⟩
  have h := C1_single_flight_on_success freshLoader (initState 600) "voice_design"
    100 [0, 1, 2] (by decide) (by decide) (by decide)
  exact ⟨h.1 (by decide), h.2⟩

/-- C2: when the loader raises during a cold `_get_model`, nothing is
inserted — `_models` and `_last_used` are exactly as before the call — the
failure propagates to the caller, and a subsequent `_get_model` invokes the
loader again and caches and returns its handle if that invocation
succeeds. -/
theorem C2_failed_load_not_poisoning (loader : Loader) (now now2 : Time)
    (s : MgrState) (k : Key)
    (hknown : (MODEL_IDS.lookup k).isSome)
    (hm : s.models.lookup k = none) (hl : loader s.loadCount = none) :
    (acquire loader now s k).2 = .loadFailed ∧
    (acquire loader now s k).1.models = s.models ∧
    (acquire loader now s k).1.lastUsed = s.lastUsed ∧
    (acquire loader now s k).1.loadCount = s.loadCount + 1 ∧
    ∀ h1 : Handle, loader (s.loadCount + 1) = some h1 →
      (acquire loader now2 (acquire loader now s k).1 k).2 = .handle h1 ∧
      (acquire loader now2 (acquire loader now s k).1 k).1.models.lookup k = some h1 := by
  rw [acquire_cold_fail loader now s k hknown hm hl]
  refine ⟨rfl, rfl, rfl, rfl, ?_⟩
  intro h1 hl2
  have hm2 : ({ s with loadCount := s.loadCount + 1 } : MgrState).models.lookup k
      = none := hm
  rw [acquire_cold_success loader now2 _ k h1 hknown hm2 hl2]
  refine ⟨rfl, ?_⟩
  show (s.models ++ [(k, h1)]).lookup k = some h1
  rw [lookup_append_right _ _ _ hm, lookup_cons_self]

/-- Witness for C2: a fresh manager, a loader failing once then producing
handle 7. -/
theorem C2_failed_load_not_poisoning_witness :
    ((MODEL_IDS.lookup "voice_design").isSome = true ∧
     (initState 600).models.lookup "voice_design" = none ∧
     flakyLoader (initState 600).loadCount = none ∧
     flakyLoader ((initState 600).loadCount + 1) = some 7) ∧
    ((acquire flakyLoader 0 (initState 600) "voice_design").2 =
        AcquireResult.loadFailed ∧
     (acquire flakyLoader 0 (initState 600) "voice_design").1.models =
        (initState 600).models ∧
     (acquire flakyLoader 1
        (acquire flakyLoader 0 (initState 600) "voice_design").1
        "voice_design").2 = AcquireResult.handle 7) := by
  refine ⟨⟨by decide, by decide, by decide, by decide⟩, ?_⟩
  have h := C2_failed_load_not_poisoning flakyLoader 0 1 (initState 600)
    "voice_design" (by decide) (by decide) (by decide)
  exact ⟨h.1, h.2.1, (h.2.2.2.2 7 (by decide)).1⟩

/-- C3: with a positive idle timeout, an eviction pass at time `now`
removes from `_models` exactly the keys whose `_last_used` timestamp is
`≤ now - idleTimeout` (reporting them in the returned list), and a
subsequent acquire of an evicted key is cold again: it invokes the loader
and returns the new handle that invocation produces. -/
theorem C3_idle_eviction (s : MgrState) (now : Time) (loader : Loader)
    (k : Key) (t : Time)
    (hT : s.idleTimeoutS ≠ 0) (hInv : Inv s)
    (hknown : (MODEL_IDS.lookup k).isSome)
    (hlu : s.lastUsed.lookup k = some t) :
    (t ≤ now - (s.idleTimeoutS : Int) →
      (unloadIdleLocked now s).1.models.lookup k = none ∧
      k ∈ (unloadIdleLocked now s).2 ∧
      ∀ h1 : Handle, loader (unloadIdleLocked now s).1.loadCount = some h1 →
        ∀ now2 : Time,
          (acquire loader now2 (unloadIdleLocked now s).1 k).2 = .handle h1 ∧
          (acquire loader now2 (unloadIdleLocked now s).1 k).1.loadCount =
            (unloadIdleLocked now s).1.loadCount + 1) ∧
    (¬ t ≤ now - (s.idleTimeoutS : Int) →
      (unloadIdleLocked now s).1.models.lookup k = s.models.lookup k ∧
      k ∉ (unloadIdleLocked now s).2) := by
  obtain ⟨hkeys, hnd⟩ := hInv
  have hndl : (keysOf s.lastUsed).Nodup := hkeys ▸ hnd
  have hkm : k ∈ keysOf s.models := by
    rw [hkeys]
    exact (lookup_isSome_iff _ _).mp (by simp [hlu])
  have hms : (s.models.lookup k).isSome := (lookup_isSome_iff _ _).mpr hkm
  have hmne : ¬ s.models = [] := by
    intro e
    rw [e] at hkm
    simp [keysOf] at hkm
  have hrun := unloadIdleLocked_run now s hT hmne
  constructor
  · intro hle
    have hstale : k ∈ staleKeys now s :=
      (mem_staleKeys_iff now s k hndl).mpr ⟨hms, t, hlu, hle⟩
    have hcontains : ((staleKeys now s).contains k) = true :=
      (contains_iff_mem _ _).mpr hstale
    have hlookup : (unloadIdleLocked now s).1.models.lookup k = none := by
      rw [hrun]
      have e := lookup_filter_keys s.models
        (fun b => !(staleKeys now s).contains b) k
      rw [hcontains] at e
      exact e.trans (if_neg (by decide))
    refine ⟨hlookup, by rw [hrun]; exact hstale, ?_⟩
    intro h1 hl1 now2
    rw [acquire_cold_success loader now2 _ k h1 hknown hlookup hl1]
    exact ⟨rfl, rfl⟩
  · intro hgt
    have hnstale : k ∉ staleKeys now s := by
      intro hstale
      obtain ⟨_, t0, hlk0, hle0⟩ := (mem_staleKeys_iff now s k hndl).mp hstale
      rw [hlu] at hlk0
      cases hlk0
      exact hgt hle0
    have hcontains : ((staleKeys now s).contains k) = false := by
      rw [← Bool.not_eq_true]
      intro hc
      exact hnstale ((contains_iff_mem _ _).mp hc)
    constructor
    · rw [hrun]
      have e := lookup_filter_keys s.models
        (fun b => !(staleKeys now s).contains b) k
      rw [hcontains] at e
      exact e.trans (if_pos (by decide))
    · rw [hrun]
      exact hnstale

/-- Witness for C3: with timeout 60 s, last uses at 10 and 50 and a wake
at 75 (cutoff 15), "voice_design" is evicted and reloads with handle 102. -/
theorem C3_idle_eviction_witness :
    (twoModelState.idleTimeoutS ≠ 0 ∧ Inv twoModelState ∧
     (MODEL_IDS.lookup "voice_design").isSome = true ∧
     twoModelState.lastUsed.lookup "voice_design" = some 10 ∧
     (10 : Int) ≤ 75 - (twoModelState.idleTimeoutS : Int)) ∧
    ((unloadIdleLocked 75 twoModelState).1.models.lookup "voice_design" = none ∧
     "voice_design" ∈ (unloadIdleLocked 75 twoModelState).2 ∧
     (acquire freshLoader 80 (unloadIdleLocked 75 twoModelState).1
        "voice_design").2 = AcquireResult.handle 102) := by
  refine ⟨⟨by decide, ⟨by decide, by decide⟩, by decide, by decide, by decide⟩, ?_⟩
  have h := (C3_idle_eviction twoModelState 75 freshLoader "voice_design" 10
    (by decide) ⟨by decide, by decide⟩ (by decide) (by decide)).1 (by decide)
  exact ⟨h.1, h.2.1, (h.2.2 102 (by decide) 80).1⟩

/-- C4: for a key with a cached entry, `_get_model` returns exactly the
stored handle without invoking the loader and sets its `_last_used`
timestamp to now; moreover every acquire that returns a handle (warm or
cold) sets the key's `_last_used` timestamp to now. -/
theorem C4_warm_acquire (loader : Loader) (now : Time) (s : MgrState) (k : Key)
    (hknown : (MODEL_IDS.lookup k).isSome) :
    (∀ h0 : Handle, s.models.lookup k = some h0 →
      (acquire loader now s k).2 = .handle h0 ∧
      (acquire loader now s k).1.models = s.models ∧
      (acquire loader now s k).1.loadCount = s.loadCount ∧
      (acquire loader now s k).1.lastUsed.lookup k = some now) ∧
    (∀ h1 : Handle, (acquire loader now s k).2 = .handle h1 →
      (acquire loader now s k).1.lastUsed.lookup k = some now) := by
  constructor
  · intro h0 hm
    rw [acquire_warm loader now s k h0 hknown hm]
    exact ⟨rfl, rfl, rfl, touch_lookup_self _ _ _⟩
  · intro h1 hr
    cases hm : s.models.lookup k with
    | some h0 =>
      rw [acquire_warm loader now s k h0 hknown hm]
      exact touch_lookup_self _ _ _
    | none =>
      cases hl : loader s.loadCount with
      | none =>
        rw [acquire_cold_fail loader now s k hknown hm hl] at hr
        cases hr
      | some h2 =>
        rw [acquire_cold_success loader now s k h2 hknown hm hl]
        exact touch_lookup_self _ _ _

/-- Witness for C4: a warm acquire at time 42 returns the cached handle 7
and refreshes the timestamp. -/
theorem C4_warm_acquire_witness :
    ((MODEL_IDS.lookup "voice_design").isSome = true ∧
     oneModelState.models.lookup "voice_design" = some 7) ∧
    ((acquire freshLoader 42 oneModelState "voice_design").2 =
        AcquireResult.handle 7 ∧
     (acquire freshLoader 42 oneModelState "voice_design").1.loadCount =
        oneModelState.loadCount ∧
     (acquire freshLoader 42 oneModelState "voice_design").1.lastUsed.lookup
        "voice_design" = some 42) := by
  refine ⟨⟨by decide, by decide⟩, ?_⟩
  have h := (C4_warm_acquire freshLoader 42 oneModelState "voice_design"
    (by decide)).1 7 (by decide)
  exact ⟨h.1, h.2.2.1, h.2.2.2⟩

/-- C6: with `idleTimeout ≤ 0` the manager never starts the cleanup thread
(`__init__` clamps the timeout to 0 and skips the thread), a scheduler
wake never changes the state, and over any serialized sequence of
operations that contains none of the explicit removal entry points
(`unload_model`, `unload_all`, `shutdown`) every resident key stays
resident, whatever times elapse. -/
theorem C6_disabled_eviction (loader : Loader) (cfg : Int) (hcfg : cfg ≤ 0)
    (s : MgrState) (h0 : s.idleTimeoutS = 0)
    (ops : List Op) (hops : ∀ op ∈ ops, op.isExplicitRemoval = false)
    (k : Key) (hk : k ∈ keysOf s.models) :
    (initState cfg).cleanupThreadStarted = false ∧
    (initState cfg).idleTimeoutS = 0 ∧
    (∀ now : Time, (cleanupWake now s).1 = s ∧ unloadIdleLocked now s = (s, [])) ∧
    k ∈ keysOf (run loader s ops).models := by
  have ht0 : (max 0 cfg).toNat = 0 := by omega
  refine ⟨by simp [initState, ht0], by simp [initState, ht0], ?_, ?_⟩
  · intro now
    exact ⟨cleanupWake_state_of_timeout_zero now s h0,
      unloadIdleLocked_skip now s (Or.inl h0)⟩
  · clear hcfg ht0
    induction ops generalizing s with
    | nil => exact hk
    | cons op ops ih =>
      have hop := hops op (List.mem_cons_self _ _)
      have hrest : ∀ o ∈ ops, o.isExplicitRemoval = false :=
        fun o ho => hops o (List.mem_cons_of_mem _ ho)
      show k ∈ keysOf (run loader (step loader s op) ops).models
      refine ih (step loader s op) ?_ hrest ?_
      · rw [step_idleTimeoutS]
        exact h0
      · cases op with
        | acquireOp k2 now => exact acquire_key_mono loader now s k2 k hk
        | wakeOp now =>
          show k ∈ keysOf (cleanupWake now s).1.models
          rw [cleanupWake_state_of_timeout_zero now s h0]
          exact hk
        | unloadModelOp k2 => simp [Op.isExplicitRemoval] at hop
        | unloadAllOp => simp [Op.isExplicitRemoval] at hop
        | shutdownOp => simp [Op.isExplicitRemoval] at hop

/-- Witness for C6: eviction disabled, an acquire of another key and a
wake far in the future do not remove the resident model. -/
theorem C6_disabled_eviction_witness :
    ((-5 : Int) ≤ 0 ∧ disabledEvictionState.idleTimeoutS = 0 ∧
     (∀ op ∈ [Op.acquireOp "base_0.6B" 5, Op.wakeOp 1000000],
        op.isExplicitRemoval = false) ∧
     "voice_design" ∈ keysOf disabledEvictionState.models) ∧
    "voice_design" ∈ keysOf (run freshLoader disabledEvictionState
      [Op.acquireOp "base_0.6B" 5, Op.wakeOp 1000000]).models := by
  refine ⟨⟨by decide, by decide, by decide, by decide⟩, ?_⟩
  exact (C6_disabled_eviction freshLoader (-5) (by decide) disabledEvictionState
    (by decide) [Op.acquireOp "base_0.6B" 5, Op.wakeOp 1000000] (by decide)
    "voice_design" (by decide)).2.2.2

/-- C8 counterexample: `unload_model` on a state where the key is resident
does remove the entry, but the Python body has no `return` statement, so
the call returns `None` — not the removal flag `True` the claim
describes. -/
theorem C8_counterexample :
    (unload_model oneModelState "voice_design").1.models.lookup "voice_design"
        = none ∧
    (unload_model oneModelState "voice_design").2.1 = none ∧
    (unload_model oneModelState "voice_design").2.1 ≠ some true := by
  exact ⟨by decide, by decide, by decide⟩

/-- C8 amended: `unload_model(key)` removes the key's entry from both
dicts when present (leaving all other keys untouched) and performs the
device-cache release strictly after the removal (witnessed by the ordered
action trace); when absent it changes nothing and releases nothing.  The
removal flag is only used internally: the call itself returns `None`. -/
theorem C8_evict_amended (s : MgrState) (k : Key) :
    ((s.models.lookup k).isSome = true →
      (unload_model s k).1.models.lookup k = none ∧
      (unload_model s k).1.lastUsed.lookup k = none ∧
      (∀ k2, k2 ≠ k →
        (unload_model s k).1.models.lookup k2 = s.models.lookup k2 ∧
        (unload_model s k).1.lastUsed.lookup k2 = s.lastUsed.lookup k2) ∧
      (unload_model s k).2.2 = [Action.removeEntry k, Action.clearDeviceCache]) ∧
    (s.models.lookup k = none →
      (unload_model s k).1 = s ∧ (unload_model s k).2.2 = []) ∧
    (unload_model s k).2.1 = none := by
  by_cases hm : (s.models.lookup k).isSome = true
  · have hrw : unload_model s k =
        ({ s with
            models := s.models.filter (fun p => !(p.1 == k))
            lastUsed := s.lastUsed.filter (fun p => !(p.1 == k)) },
         none, [Action.removeEntry k, Action.clearDeviceCache]) := by
      simp [unload_model, hm]
    refine ⟨fun _ => ?_, fun hnone => ?_, by rw [hrw]⟩
    · rw [hrw]
      refine ⟨?_, ?_, ?_, rfl⟩
      · have e := lookup_filter_keys s.models (fun b => !(b == k)) k
        simpa using e
      · have e := lookup_filter_keys s.lastUsed (fun b => !(b == k)) k
        simpa using e
      · intro k2 hk2
        have e1 := lookup_filter_keys s.models (fun b => !(b == k)) k2
        have e2 := lookup_filter_keys s.lastUsed (fun b => !(b == k)) k2
        simp only [bne_iff_ne, ne_eq] at e1 e2
        constructor
        · simpa [hk2] using e1
        · simpa [hk2] using e2
    · rw [hnone] at hm
      cases hm
  · have hrw : unload_model s k = (s, none, []) := by
      simp [unload_model, hm]
    refine ⟨fun habs => absurd habs hm, fun _ => ?_, by rw [hrw]⟩
    rw [hrw]
    exact ⟨rfl, rfl⟩

/-- Witness for C8 (amended): removing the resident "voice_design" entry
leaves no entry behind and the release action follows the removal. -/
theorem C8_evict_amended_witness :
    (oneModelState.models.lookup "voice_design").isSome = true ∧
    ((unload_model oneModelState "voice_design").1.models.lookup "voice_design"
        = none ∧
     (unload_model oneModelState "voice_design").2.2 =
        [Action.removeEntry "voice_design", Action.clearDeviceCache]) := by
  refine ⟨by decide, ?_⟩
  have h := (C8_evict_amended oneModelState "voice_design").1 (by decide)
  exact ⟨h.1, h.2.2.2⟩

end TTSStudio
